import Mathlib

/-!
Shallow embedding of the Tarantool storage-engine layer (engine.cc):
the checkpoint coordination protocol (`engine_checkpoint`), the engine
registry (`engine_register`, `engine_find`), the Handler mutation
defaults, and the generic select path (`Handler::executeSelect`).

Hooks on an engine are modelled by their observable outcomes; each call
made by the coordinator or the select path is recorded in a trace, so
that claims about which hooks run, in which order, and on which engines
become statements about that trace.
-/

namespace Tarantool

/-! ### Checkpoint coordination (`engine_checkpoint`)

A registered engine's checkpoint hooks `beginCheckpoint` / `waitCheckpoint`
return an `int` status (nonzero = failure) and, on failure, leave the error
code in `errno`; `engine_checkpoint` saves `errno` at the failure point and
returns it.  We model the two observable outcomes together: `none` means the
hook returns 0, `some e` means it returns nonzero having set `errno = e`.
`commitCheckpoint` and `abortCheckpoint` return nothing. -/

structure CkEngine where
  name : String
  beginOutcome : Option Nat
  waitOutcome : Option Nat
deriving DecidableEq, Repr

/-- One observable action of `engine_checkpoint`: a hook invocation on a
named engine, or taking/releasing the schema-wide latch. -/
inductive CkEvent where
  | lockSchema
  | unlockSchema
  | beginCk (name : String) (id : Int)
  | waitCk (name : String)
  | commitCk (name : String)
  | abortCk (name : String)
deriving DecidableEq, Repr

/-- Global state read and written by `engine_checkpoint`: the
`snapshot_in_progress` flag and the depth of the `schema_lock` latch. -/
structure CkState where
  snapshot_in_progress : Bool
  lockDepth : Nat
deriving DecidableEq, Repr

/-- Return value of a failed `engine_checkpoint` when a checkpoint is
already in flight (the C code returns the errno constant `EINPROGRESS`). -/
def EINPROGRESS : Nat := 115

/-- Return code, hook-invocation trace and final global state of one
`engine_checkpoint` call. -/
structure CkResult where
  code : Nat
  trace : List CkEvent
  state : CkState
deriving DecidableEq, Repr

/-- Trace of the begin loop run to completion over `engines`. -/
def beginTrace (engines : List CkEngine) (id : Int) : List CkEvent :=
  engines.map fun e => CkEvent.beginCk e.name id

/-- Trace of the wait loop run to completion over `engines`. -/
def waitTrace (engines : List CkEngine) : List CkEvent :=
  engines.map fun e => CkEvent.waitCk e.name

/-- Trace of the commit loop over `engines`. -/
def commitTrace (engines : List CkEngine) : List CkEvent :=
  engines.map fun e => CkEvent.commitCk e.name

/-- Trace of the abort loop over `engines`. -/
def abortTrace (engines : List CkEngine) : List CkEvent :=
  engines.map fun e => CkEvent.abortCk e.name

/-- The begin loop: `engine_foreach(engine) if (engine->beginCheckpoint(id)) goto error;`.
Returns the events of the begin calls actually issued and, on failure,
the errno of the first failing engine. -/
def beginPhase : List CkEngine → Int → List CkEvent × Option Nat
  | [], _ => ([], none)
  | e :: rest, id =>
    match e.beginOutcome with
    | some err => ([CkEvent.beginCk e.name id], some err)
    | none =>
      let r := beginPhase rest id
      (CkEvent.beginCk e.name id :: r.1, r.2)

/-- The wait loop: `engine_foreach(engine) if (engine->waitCheckpoint()) goto error;`. -/
def waitPhase : List CkEngine → List CkEvent × Option Nat
  | [] => ([], none)
  | e :: rest =>
    match e.waitOutcome with
    | some err => ([CkEvent.waitCk e.name], some err)
    | none =>
      let r := waitPhase rest
      (CkEvent.waitCk e.name :: r.1, r.2)

/-- `engine_checkpoint(checkpoint_id)`: reject with `EINPROGRESS` if a
checkpoint is in flight; otherwise set the flag, take the schema latch,
run begin over all engines (stopping at the first failure), then wait,
then commit; on any begin/wait failure save errno, run abort over every
registered engine, and return the saved errno.  The latch is released
and the flag cleared on every exit path past the initial check. -/
def engine_checkpoint (engines : List CkEngine) (id : Int) (st : CkState) : CkResult :=
  if st.snapshot_in_progress then ⟨EINPROGRESS, [], st⟩
  else
    let st1 : CkState := ⟨true, st.lockDepth + 1⟩
    match beginPhase engines id with
    | (btr, some err) =>
      ⟨err, CkEvent.lockSchema :: (btr ++ abortTrace engines ++ [CkEvent.unlockSchema]),
        ⟨false, st1.lockDepth - 1⟩⟩
    | (btr, none) =>
      match waitPhase engines with
      | (wtr, some err) =>
        ⟨err, CkEvent.lockSchema :: (btr ++ wtr ++ abortTrace engines ++ [CkEvent.unlockSchema]),
          ⟨false, st1.lockDepth - 1⟩⟩
      | (wtr, none) =>
        ⟨0, CkEvent.lockSchema :: (btr ++ wtr ++ commitTrace engines ++ [CkEvent.unlockSchema]),
          ⟨false, st1.lockDepth - 1⟩⟩

/-- Every failing hook sets a nonzero errno (the POSIX convention the C
code relies on when it returns `save_errno` as the failure code). -/
def ErrnoSane (engines : List CkEngine) : Prop :=
  ∀ e ∈ engines,
    (∀ x, e.beginOutcome = some x → x ≠ 0) ∧ (∀ x, e.waitOutcome = some x → x ≠ 0)

instance (engines : List CkEngine) : Decidable (ErrnoSane engines) := by
  unfold ErrnoSane
  infer_instance

/-- The two possible outcomes of an `engine_checkpoint` call that was not
rejected up front: success with begin/wait/commit fanned out over every
engine, or failure with begin issued to a prefix of the engines, wait to a
prefix, abort to all of them, and the first failure code returned; in both
the flag ends cleared and the latch depth is restored. -/
def CkDichotomy (engines : List CkEngine) (id : Int) (st : CkState) : Prop :=
  let r := engine_checkpoint engines id st
  (r.code = 0 ∧
    r.trace = CkEvent.lockSchema ::
      (beginTrace engines id ++ waitTrace engines ++ commitTrace engines ++
        [CkEvent.unlockSchema]) ∧
    r.state = ⟨false, st.lockDepth⟩)
  ∨ (r.code ≠ 0 ∧
    (∃ k w, k ≤ engines.length ∧ w ≤ engines.length ∧
      r.trace = CkEvent.lockSchema ::
        (beginTrace (engines.take k) id ++ waitTrace (engines.take w) ++
          abortTrace engines ++ [CkEvent.unlockSchema])) ∧
    r.state = ⟨false, st.lockDepth⟩)

theorem beginPhase_eq_none {engines : List CkEngine} {id : Int} {btr : List CkEvent}
    (h : beginPhase engines id = (btr, none)) : btr = beginTrace engines id := by
  induction engines generalizing btr with
  | nil =>
    simp [beginPhase] at h
    simp [beginTrace, h]
  | cons e rest ih =>
    cases hb : e.beginOutcome with
    | some err => simp [beginPhase, hb] at h
    | none =>
      simp [beginPhase, hb] at h
      obtain ⟨h1, h2⟩ := h
      cases hr : beginPhase rest id with
      | mk rtr rres =>
        rw [hr] at h1 h2
        simp at h1 h2
        subst h2
        rw [← h1, beginTrace, List.map_cons, ← beginTrace, ih hr]

theorem beginPhase_eq_some {engines : List CkEngine} {id : Int} {btr : List CkEvent}
    {err : Nat} (h : beginPhase engines id = (btr, some err)) :
    (∃ k, k ≤ engines.length ∧ btr = beginTrace (engines.take k) id) ∧
    ∃ f ∈ engines, f.beginOutcome = some err := by
  induction engines generalizing btr with
  | nil => simp [beginPhase] at h
  | cons e rest ih =>
    cases hb : e.beginOutcome with
    | some e0 =>
      simp [beginPhase, hb] at h
      obtain ⟨h1, h2⟩ := h
      subst h2
      refine ⟨⟨1, by simp, ?_⟩, e, by simp, hb⟩
      simp [beginTrace, ← h1]
    | none =>
      simp [beginPhase, hb] at h
      obtain ⟨h1, h2⟩ := h
      cases hr : beginPhase rest id with
      | mk rtr rres =>
        rw [hr] at h1 h2
        simp at h1 h2
        subst h2
        obtain ⟨⟨k, hk, hbtr⟩, f, hf, hfb⟩ := ih hr
        refine ⟨⟨k + 1, by simpa using hk, ?_⟩, f, by simp [hf], hfb⟩
        simp [beginTrace, ← h1, hbtr]

theorem waitPhase_eq_none {engines : List CkEngine} {wtr : List CkEvent}
    (h : waitPhase engines = (wtr, none)) : wtr = waitTrace engines := by
  induction engines generalizing wtr with
  | nil =>
    simp [waitPhase] at h
    simp [waitTrace, h]
  | cons e rest ih =>
    cases hw : e.waitOutcome with
    | some err => simp [waitPhase, hw] at h
    | none =>
      simp [waitPhase, hw] at h
      obtain ⟨h1, h2⟩ := h
      cases hr : waitPhase rest with
      | mk rtr rres =>
        rw [hr] at h1 h2
        simp at h1 h2
        subst h2
        rw [← h1, waitTrace, List.map_cons, ← waitTrace, ih hr]

theorem waitPhase_eq_some {engines : List CkEngine} {wtr : List CkEvent}
    {err : Nat} (h : waitPhase engines = (wtr, some err)) :
    (∃ w, w ≤ engines.length ∧ wtr = waitTrace (engines.take w)) ∧
    ∃ f ∈ engines, f.waitOutcome = some err := by
  induction engines generalizing wtr with
  | nil => simp [waitPhase] at h
  | cons e rest ih =>
    cases hw : e.waitOutcome with
    | some e0 =>
      simp [waitPhase, hw] at h
      obtain ⟨h1, h2⟩ := h
      subst h2
      refine ⟨⟨1, by simp, ?_⟩, e, by simp, hw⟩
      simp [waitTrace, ← h1]
    | none =>
      simp [waitPhase, hw] at h
      obtain ⟨h1, h2⟩ := h
      cases hr : waitPhase rest with
      | mk rtr rres =>
        rw [hr] at h1 h2
        simp at h1 h2
        subst h2
        obtain ⟨⟨w, hw', hwtr⟩, f, hf, hfw⟩ := ih hr
        refine ⟨⟨w + 1, by simpa using hw', ?_⟩, f, by simp [hf], hfw⟩
        simp [waitTrace, ← h1, hwtr]

/-- Claim C1: with no checkpoint in flight, `engine_checkpoint` has exactly
one of two outcomes: success, with begin/wait/commit each fanned out over
every registered engine in registration order, or failure, with begin
issued to a prefix of the engines (and wait to a prefix), abort issued to
every engine, and the first failing engine's saved errno returned; in both
outcomes the in-progress flag ends cleared and the schema latch is
released.  The disjunction is exhaustive (the return code is 0 exactly in
the first case), so no third outcome is possible. -/
theorem engine_checkpoint_dichotomy
    (engines : List CkEngine) (id : Int) (st : CkState)
    (hflag : st.snapshot_in_progress = false)
    (hwf : ErrnoSane engines) :
    CkDichotomy engines id st := by
  unfold CkDichotomy
  unfold engine_checkpoint
  rw [if_neg (by rw [hflag]; exact Bool.false_ne_true)]
  cases hB : beginPhase engines id with
  | mk btr bres =>
    cases bres with
    | some err =>
      obtain ⟨⟨k, hk, hbtr⟩, f, hf, hfb⟩ := beginPhase_eq_some hB
      refine Or.inr ⟨(hwf f hf).1 err hfb, ⟨k, 0, hk, Nat.zero_le _, ?_⟩, by simp⟩
      simp [hbtr, waitTrace]
    | none =>
      cases hW : waitPhase engines with
      | mk wtr wres =>
        cases wres with
        | some err =>
          obtain ⟨⟨w, hw, hwtr⟩, f, hf, hfw⟩ := waitPhase_eq_some hW
          refine Or.inr ⟨(hwf f hf).2 err hfw,
            ⟨engines.length, w, Nat.le_refl _, hw, ?_⟩, by simp⟩
          simp [beginPhase_eq_none hB, hwtr, List.take_length]
        | none =>
          refine Or.inl ⟨rfl, ?_, by simp⟩
          simp [beginPhase_eq_none hB, waitPhase_eq_none hW]

/-- Witness for C1 at two concrete engines, the second failing its wait. -/
theorem engine_checkpoint_dichotomy_witness :
    (CkState.mk false 2).snapshot_in_progress = false ∧
    ErrnoSane [⟨"memtx", none, none⟩, ⟨"sophia", none, some 5⟩] ∧
    CkDichotomy [⟨"memtx", none, none⟩, ⟨"sophia", none, some 5⟩] 9 ⟨false, 2⟩ :=
  ⟨rfl, by decide,
    engine_checkpoint_dichotomy [⟨"memtx", none, none⟩, ⟨"sophia", none, some 5⟩]
      9 ⟨false, 2⟩ rfl (by decide)⟩

theorem beginPhase_first_failure {pre : List CkEngine} {f : CkEngine}
    {post : List CkEngine} {id : Int} {err : Nat}
    (hpre : ∀ g ∈ pre, g.beginOutcome = none) (hf : f.beginOutcome = some err) :
    beginPhase (pre ++ f :: post) id = (beginTrace (pre ++ [f]) id, some err) := by
  induction pre with
  | nil => simp [beginPhase, hf, beginTrace]
  | cons g rest ih =>
    have hg : g.beginOutcome = none := hpre g (by simp)
    have := ih fun x hx => hpre x (by simp [hx])
    simp [beginPhase, hg, this, beginTrace]

theorem beginPhase_all_none {engines : List CkEngine} {id : Int}
    (h : ∀ g ∈ engines, g.beginOutcome = none) :
    beginPhase engines id = (beginTrace engines id, none) := by
  induction engines with
  | nil => simp [beginPhase, beginTrace]
  | cons g rest ih =>
    have hg : g.beginOutcome = none := h g (by simp)
    have := ih fun x hx => h x (by simp [hx])
    simp [beginPhase, hg, this, beginTrace]

theorem waitPhase_first_failure {pre : List CkEngine} {f : CkEngine}
    {post : List CkEngine} {err : Nat}
    (hpre : ∀ g ∈ pre, g.waitOutcome = none) (hf : f.waitOutcome = some err) :
    waitPhase (pre ++ f :: post) = (waitTrace (pre ++ [f]), some err) := by
  induction pre with
  | nil => simp [waitPhase, hf, waitTrace]
  | cons g rest ih =>
    have hg : g.waitOutcome = none := hpre g (by simp)
    have := ih fun x hx => hpre x (by simp [hx])
    simp [waitPhase, hg, this, waitTrace]

/-- Claim C3: when the first failure of a checkpoint attempt is engine `f`
failing its begin (all engines registered before `f` began successfully),
begin is issued exactly to the engines up to and including `f` — never to
a later engine — abort is issued to every registered engine, the saved
errno of `f` is returned, and the in-progress flag ends false; and when
every begin succeeds and `f` is the first engine to fail its wait, begin
was issued to all engines, wait to the engines up to and including `f`,
abort to every engine, again returning `f`'s errno with the flag cleared. -/
theorem engine_checkpoint_first_failure :
    (∀ (pre : List CkEngine) (f : CkEngine) (post : List CkEngine)
      (id : Int) (err : Nat) (st : CkState),
      st.snapshot_in_progress = false →
      (∀ g ∈ pre, g.beginOutcome = none) →
      f.beginOutcome = some err →
      engine_checkpoint (pre ++ f :: post) id st =
        ⟨err,
          CkEvent.lockSchema ::
            (beginTrace (pre ++ [f]) id ++ abortTrace (pre ++ f :: post) ++
              [CkEvent.unlockSchema]),
          ⟨false, st.lockDepth⟩⟩) ∧
    (∀ (pre : List CkEngine) (f : CkEngine) (post : List CkEngine)
      (id : Int) (err : Nat) (st : CkState),
      st.snapshot_in_progress = false →
      (∀ g ∈ pre ++ f :: post, g.beginOutcome = none) →
      (∀ g ∈ pre, g.waitOutcome = none) →
      f.waitOutcome = some err →
      engine_checkpoint (pre ++ f :: post) id st =
        ⟨err,
          CkEvent.lockSchema ::
            (beginTrace (pre ++ f :: post) id ++ waitTrace (pre ++ [f]) ++
              abortTrace (pre ++ f :: post) ++ [CkEvent.unlockSchema]),
          ⟨false, st.lockDepth⟩⟩) := by
  constructor
  · intro pre f post id err st hflag hpre hf
    unfold engine_checkpoint
    rw [if_neg (by rw [hflag]; exact Bool.false_ne_true)]
    rw [beginPhase_first_failure hpre hf]
    simp
  · intro pre f post id err st hflag hbegin hpre hf
    unfold engine_checkpoint
    rw [if_neg (by rw [hflag]; exact Bool.false_ne_true)]
    rw [beginPhase_all_none hbegin]
    rw [waitPhase_first_failure hpre hf]
    simp

/-- Witness for C3 on the spec's scenario: engines A, B, C in that order,
B's begin failing with errno 7 at checkpoint id 5 (first conjunct), and a
variant where B's wait fails instead (second conjunct, errno 9). -/
theorem engine_checkpoint_first_failure_witness :
    ((CkState.mk false 0).snapshot_in_progress = false ∧
      (∀ g ∈ [(⟨"A", none, none⟩ : CkEngine)], g.beginOutcome = none) ∧
      (⟨"B", some 7, none⟩ : CkEngine).beginOutcome = some 7 ∧
      engine_checkpoint [⟨"A", none, none⟩, ⟨"B", some 7, none⟩, ⟨"C", none, none⟩]
          5 ⟨false, 0⟩ =
        ⟨7,
          CkEvent.lockSchema ::
            (beginTrace [⟨"A", none, none⟩, ⟨"B", some 7, none⟩] 5 ++
              abortTrace [⟨"A", none, none⟩, ⟨"B", some 7, none⟩, ⟨"C", none, none⟩] ++
              [CkEvent.unlockSchema]),
          ⟨false, 0⟩⟩) ∧
    ((CkState.mk false 0).snapshot_in_progress = false ∧
      (∀ g ∈ [(⟨"A", none, none⟩ : CkEngine), ⟨"B", none, some 9⟩, ⟨"C", none, none⟩],
        g.beginOutcome = none) ∧
      (∀ g ∈ [(⟨"A", none, none⟩ : CkEngine)], g.waitOutcome = none) ∧
      (⟨"B", none, some 9⟩ : CkEngine).waitOutcome = some 9 ∧
      engine_checkpoint [⟨"A", none, none⟩, ⟨"B", none, some 9⟩, ⟨"C", none, none⟩]
          5 ⟨false, 0⟩ =
        ⟨9,
          CkEvent.lockSchema ::
            (beginTrace [⟨"A", none, none⟩, ⟨"B", none, some 9⟩, ⟨"C", none, none⟩] 5 ++
              waitTrace [⟨"A", none, none⟩, ⟨"B", none, some 9⟩] ++
              abortTrace [⟨"A", none, none⟩, ⟨"B", none, some 9⟩, ⟨"C", none, none⟩] ++
              [CkEvent.unlockSchema]),
          ⟨false, 0⟩⟩) :=
  ⟨⟨rfl, by decide, rfl,
    engine_checkpoint_first_failure.1 [⟨"A", none, none⟩] ⟨"B", some 7, none⟩
      [⟨"C", none, none⟩] 5 7 ⟨false, 0⟩ rfl (by decide) rfl⟩,
   ⟨rfl, by decide, by decide, rfl,
    engine_checkpoint_first_failure.2 [⟨"A", none, none⟩] ⟨"B", none, some 9⟩
      [⟨"C", none, none⟩] 5 9 ⟨false, 0⟩ rfl (by decide) (by decide) rfl⟩⟩

/-- Claim C4: if the global in-progress flag is already set,
`engine_checkpoint` returns `EINPROGRESS` at once, invokes no hook on any
engine (empty trace), and leaves the state untouched: the flag keeps its
value and the schema latch is never acquired. -/
theorem engine_checkpoint_already_in_progress
    (engines : List CkEngine) (id : Int) (st : CkState)
    (h : st.snapshot_in_progress = true) :
    engine_checkpoint engines id st = ⟨EINPROGRESS, [], st⟩ := by
  unfold engine_checkpoint
  rw [if_pos h]

/-- Witness for C4 at a concrete state with the flag set. -/
theorem engine_checkpoint_already_in_progress_witness :
    (CkState.mk true 0).snapshot_in_progress = true ∧
    engine_checkpoint [⟨"memtx", none, none⟩] 7 ⟨true, 0⟩ =
      ⟨EINPROGRESS, [], ⟨true, 0⟩⟩ :=
  ⟨rfl, engine_checkpoint_already_in_progress [⟨"memtx", none, none⟩] 7 ⟨true, 0⟩ rfl⟩

/-! ### Engine registry (`engine_register`, `engine_find`)

`engine_register` appends the engine to the tail of the global `engines`
rlist and assigns `engine->id = n_engines++` from a static counter.
`engine_find` scans the list from the head and returns the first engine
whose name compares equal, raising `ER_NO_SUCH_ENGINE` with the requested
name when the scan exhausts the list. -/

structure REngine where
  name : String
  id : Nat
deriving DecidableEq, Repr

inductive FindError where
  | noSuchEngine (name : String)
deriving DecidableEq, Repr

/-- `engine_find(name)`: linear scan of the registered engines in
registration order; `ER_NO_SUCH_ENGINE` if absent. -/
def engine_find (engines : List REngine) (name : String) : Except FindError REngine :=
  match engines with
  | [] => Except.error (FindError.noSuchEngine name)
  | e :: rest => if e.name = name then Except.ok e else engine_find rest name

/-- The global registry: the ordered `engines` list together with the
static `n_engines` counter of `engine_register`. -/
structure Registry where
  engines : List REngine
  n_engines : Nat
deriving DecidableEq, Repr

def Registry.empty : Registry := ⟨[], 0⟩

/-- `engine_register(engine)`: append to the tail of the list and assign
the next id from the static counter. -/
def engine_register (reg : Registry) (name : String) : Registry :=
  ⟨reg.engines ++ [⟨name, reg.n_engines⟩], reg.n_engines + 1⟩

/-- Run a whole sequence of registrations from the initial (empty) registry. -/
def registerAll (names : List String) : Registry :=
  names.foldl engine_register Registry.empty

theorem registerAll_go (names : List String) : ∀ reg : Registry,
    names.foldl engine_register reg =
      ⟨reg.engines ++
        (names.zip (List.range' reg.n_engines names.length)).map fun p => ⟨p.1, p.2⟩,
        reg.n_engines + names.length⟩ := by
  induction names with
  | nil => intro reg; simp
  | cons n rest ih =>
    intro reg
    rw [List.foldl_cons, ih]
    simp [engine_register, List.range'_succ]
    omega

theorem registerAll_engines (names : List String) :
    (registerAll names).engines =
      (names.zip (List.range' 0 names.length)).map fun p => ⟨p.1, p.2⟩ := by
  rw [registerAll, registerAll_go]
  simp [Registry.empty]

theorem registerAll_names (names : List String) :
    (registerAll names).engines.map REngine.name = names := by
  rw [registerAll_engines, List.map_map]
  have : (REngine.name ∘ fun p : String × Nat => (⟨p.1, p.2⟩ : REngine)) = Prod.fst := by
    funext p; rfl
  rw [this, List.map_fst_zip _ _ (by simp)]

theorem registerAll_ids (names : List String) :
    (registerAll names).engines.map REngine.id = List.range names.length := by
  rw [registerAll_engines, List.map_map]
  have : (REngine.id ∘ fun p : String × Nat => (⟨p.1, p.2⟩ : REngine)) = Prod.snd := by
    funext p; rfl
  rw [this, List.map_snd_zip _ _ (by simp), ← List.range_eq_range']

/-- Claim C9: over any sequence of registrations the assigned ids are
exactly 0, 1, 2, ... in registration order — strictly increasing, with no
duplicate, each assigned at the engine's own registration (position k gets
id k) and never given to a later engine again. -/
theorem engine_register_ids_strictly_increasing (names : List String) :
    (registerAll names).engines.map REngine.id = List.range names.length ∧
    ((registerAll names).engines.map REngine.id).Pairwise (· < ·) ∧
    ((registerAll names).engines.map REngine.id).Nodup := by
  refine ⟨registerAll_ids names, ?_, ?_⟩
  · rw [registerAll_ids]; exact List.pairwise_lt_range _
  · rw [registerAll_ids]; exact List.nodup_range _

theorem engine_find_mem {engines : List REngine} {e : REngine}
    (hnd : (engines.map REngine.name).Nodup) (he : e ∈ engines) :
    engine_find engines e.name = Except.ok e := by
  induction engines with
  | nil => cases he
  | cons x rest ih =>
    simp at hnd
    rcases List.mem_cons.mp he with h | h
    · subst h
      simp [engine_find]
    · have hne : x.name ≠ e.name := by
        intro hx
        exact hnd.1 e h hx.symm
      rw [engine_find, if_neg hne]
      exact ih hnd.2 h

theorem engine_find_not_mem {engines : List REngine} {s : String}
    (hs : s ∉ engines.map REngine.name) :
    engine_find engines s = Except.error (FindError.noSuchEngine s) := by
  induction engines with
  | nil => rfl
  | cons x rest ih =>
    simp at hs
    rw [engine_find, if_neg fun hh => hs.1 hh.symm]
    exact ih (by simp; exact hs.2)

/-- Claim C8: after any sequence of registrations under pairwise distinct
names, `engine_find` returns the exact engine registered under the queried
name, and for any name never registered it fails with the no-such-engine
error carrying that name. -/
theorem engine_find_spec (names : List String) (hnd : names.Nodup) :
    (∀ e ∈ (registerAll names).engines,
      engine_find (registerAll names).engines e.name = Except.ok e) ∧
    (∀ s, s ∉ names →
      engine_find (registerAll names).engines s =
        Except.error (FindError.noSuchEngine s)) := by
  constructor
  · intro e he
    exact engine_find_mem (by rw [registerAll_names]; exact hnd) he
  · intro s hs
    exact engine_find_not_mem (by rw [registerAll_names]; exact hs)

/-- Witness for C8: registry with engines "memtx" and "sophia"; lookup of
the registered "sophia" engine succeeds with that engine, lookup of
"vinyl" fails with the offending name. -/
theorem engine_find_spec_witness :
    (["memtx", "sophia"] : List String).Nodup ∧
    (⟨"sophia", 1⟩ : REngine) ∈ (registerAll ["memtx", "sophia"]).engines ∧
    engine_find (registerAll ["memtx", "sophia"]).engines "sophia" =
      Except.ok ⟨"sophia", 1⟩ ∧
    ("vinyl" : String) ∉ (["memtx", "sophia"] : List String) ∧
    engine_find (registerAll ["memtx", "sophia"]).engines "vinyl" =
      Except.error (FindError.noSuchEngine "vinyl") := by
  have h := engine_find_spec ["memtx", "sophia"] (by decide)
  refine ⟨by decide, by decide, h.1 ⟨"sophia", 1⟩ (by decide), by decide,
    h.2 "vinyl" (by decide)⟩

/-! ### Handler mutation defaults

The base `Handler` raises `ClientError(ER_UNSUPPORTED, engine->name, "op()")`
for each of the four mutation operations; the `txn`, `space`, `request`
and `port` arguments are ignored by these base implementations. -/

/-- The payload of `ClientError(ER_UNSUPPORTED, name, op)`. -/
structure UnsupportedError where
  engineName : String
  op : String
deriving DecidableEq, Repr

/-- A Handler is bound to exactly one engine. -/
structure Handler where
  engine : REngine
deriving DecidableEq, Repr

def Handler.executeReplace (h : Handler) : Except UnsupportedError Unit :=
  Except.error ⟨h.engine.name, "replace()"⟩

def Handler.executeDelete (h : Handler) : Except UnsupportedError Unit :=
  Except.error ⟨h.engine.name, "delete()"⟩

def Handler.executeUpdate (h : Handler) : Except UnsupportedError Unit :=
  Except.error ⟨h.engine.name, "update()"⟩

def Handler.executeUpsert (h : Handler) : Except UnsupportedError Unit :=
  Except.error ⟨h.engine.name, "upsert()"⟩

/-- Counterexample to C7 as stated: the base `executeReplace` fails with an
unsupported error whose operation field is the literal string
`"replace()"`, not `"replace"`, so the error raised by a Handler bound to
engine "memtx" differs from the one the claim describes. -/
theorem executeReplace_op_field_counterexample :
    Handler.executeReplace ⟨⟨"memtx", 0⟩⟩ =
      Except.error ⟨"memtx", "replace()"⟩ ∧
    Handler.executeReplace ⟨⟨"memtx", 0⟩⟩ ≠
      Except.error ⟨"memtx", "replace"⟩ := by
  constructor
  · rfl
  · intro hEq
    simp [Handler.executeReplace] at hEq

/-- Claim C7 (amended): for every Handler whose Engine keeps the base
mutation operations, `executeReplace` fails with an Unsupported error
carrying the owning Engine's name and the operation string `"replace()"`,
and analogously `executeDelete`, `executeUpdate`, `executeUpsert` fail
with `"delete()"`, `"update()"`, `"upsert()"`; the base behavior of every
mutation operation is unconditionally "unsupported". -/
theorem handler_base_mutations_unsupported (h : Handler) :
    h.executeReplace = Except.error ⟨h.engine.name, "replace()"⟩ ∧
    h.executeDelete = Except.error ⟨h.engine.name, "delete()"⟩ ∧
    h.executeUpdate = Except.error ⟨h.engine.name, "update()"⟩ ∧
    h.executeUpsert = Except.error ⟨h.engine.name, "upsert()"⟩ :=
  ⟨rfl, rfl, rfl, rfl⟩

/-! ### Select path (`Handler::executeSelect`)

`executeSelect` resolves the index by id, validates the iterator type code
against `iterator_type_MAX`, decodes the packed key into a field count,
validates the key, allocates an iterator guarded by a scoped release,
initializes it, and drains it honouring offset and limit; every fetched
tuple is held by a `TupleGuard` that releases it when the iteration step
ends.  The iterator is abstracted by its observable behavior: whether
`initIterator` raises, the finite row sequence `next` yields, and whether
`next` raises instead of returning NULL after the last row.  Every
observable action is recorded in a trace. -/

/-- The `iterator_type` enum, modelled from the spec (the enum itself is
not part of these sources): exact match, the four range bounds, and the
unrestricted "all" scan. -/
inductive IteratorType where
  | all
  | eq
  | lt
  | le
  | ge
  | gt
deriving DecidableEq, Repr

/-- Number of valid iterator-type codes (modelled from the spec's
enumerated kinds). -/
def iterator_type_MAX : Nat := 6

/-- Decode a raw request code (already checked `< iterator_type_MAX`)
into an iterator type. -/
def decodeIteratorType (c : Nat) : IteratorType :=
  match c with
  | 0 => IteratorType.all
  | 1 => IteratorType.eq
  | 2 => IteratorType.lt
  | 3 => IteratorType.le
  | 4 => IteratorType.ge
  | _ => IteratorType.gt

/-- Exact-match iterator types require a full key. -/
def IteratorType.isExactMatch : IteratorType → Bool
  | IteratorType.eq => true
  | _ => false

/-- An index's key definition: the declared key arity. -/
structure KeyDef where
  part_count : Nat
deriving DecidableEq, Repr

/-- Modelled from the spec: `key_validate` (declared in key_def.h, its body
is not part of these sources) checks the decoded key against the index's
key definition and the iterator type; a key with fewer fields than the
index's declared arity is valid for range iterator types but invalid for
exact-match types.  Returns true when the key passes validation. -/
def key_validate (kd : KeyDef) (type : IteratorType) (part_count : Nat) : Bool :=
  !(type.isExactMatch && decide (part_count < kd.part_count))

/-- Observable behavior of the iterator an index hands out for one
request: whether `initIterator` raises, the rows `next` yields in order,
and, when the scan is not cut short, whether the `next` call after the
last row raises instead of returning NULL. -/
structure IterBehavior (α : Type) where
  initFailure : Option Nat
  rows : List α
  postFailure : Option Nat
deriving DecidableEq, Repr

/-- An index: its key definition and the iterator behavior it produces
for the request under consideration. -/
structure SelIndex (α : Type) where
  key_def : KeyDef
  behavior : IterBehavior α
deriving DecidableEq, Repr

/-- A space: its indexes, keyed by index id. -/
structure SelSpace (α : Type) where
  indexes : List (Nat × SelIndex α)
deriving DecidableEq, Repr

/-- The fields of `struct request` consumed by `executeSelect`; the key is
`none` when no packed key is supplied, otherwise the decoded field list. -/
structure SelRequest where
  index_id : Nat
  iterator : Nat
  key : Option (List Nat)
  offset : Nat
  limit : Nat
deriving DecidableEq, Repr

/-- `part_count = key ? mp_decode_array(&key) : 0`. -/
def SelRequest.partCount (r : SelRequest) : Nat :=
  match r.key with
  | none => 0
  | some k => k.length

/-- Typed errors raised on the select path. -/
inductive SelError where
  | noSuchIndex (indexId : Nat)
  | illegalParams
  | invalidArgument
  | engineFault (e : Nat)
deriving DecidableEq, Repr

/-- One observable action of the select path. -/
inductive SelEvent (α : Type) where
  | allocIterator
  | freeIterator
  | fetch (t : α)
  | release (t : α)
  | emit (t : α)
deriving DecidableEq, Repr

/-- The drain loop of `executeSelect`: fetch tuples until `next` returns
NULL, skipping while `offset > 0`, breaking when `found` reaches `limit`
(the breaking tuple is fetched and released but not emitted).  Returns the
events of the loop body, the emitted rows in order, and whether the loop
broke early on the limit. -/
def scanLoop {α : Type} : List α → Nat → Nat → Nat → List (SelEvent α) × List α × Bool
  | [], _, _, _ => ([], [], false)
  | t :: rest, offset, limit, found =>
    if 0 < offset then
      let r := scanLoop rest (offset - 1) limit found
      (SelEvent.fetch t :: SelEvent.release t :: r.1, r.2.1, r.2.2)
    else if limit = found then
      ([SelEvent.fetch t, SelEvent.release t], [], true)
    else
      let r := scanLoop rest 0 limit (found + 1)
      (SelEvent.fetch t :: SelEvent.emit t :: SelEvent.release t :: r.1,
        t :: r.2.1, r.2.2)

/-- Outcome (emitted rows, or the error raised) and event trace of one
`executeSelect` call. -/
structure SelResult (α : Type) where
  outcome : Except SelError (List α)
  trace : List (SelEvent α)
deriving Repr

/-- `Handler::executeSelect`, with the iterator abstracted by its
behavior.  Failures before the iterator is allocated leave an empty
trace; from allocation on, the scoped guard frees the iterator on every
exit path, so the trace is bracketed by alloc/free events. -/
def executeSelect {α : Type} (space : SelSpace α) (r : SelRequest) : SelResult α :=
  match List.lookup r.index_id space.indexes with
  | none => ⟨Except.error (SelError.noSuchIndex r.index_id), []⟩
  | some index =>
    if iterator_type_MAX ≤ r.iterator then ⟨Except.error SelError.illegalParams, []⟩
    else if key_validate index.key_def (decodeIteratorType r.iterator) r.partCount then
      match index.behavior.initFailure with
      | some e =>
        ⟨Except.error (SelError.engineFault e),
          [SelEvent.allocIterator, SelEvent.freeIterator]⟩
      | none =>
        let s := scanLoop index.behavior.rows r.offset r.limit 0
        let tr := SelEvent.allocIterator :: (s.1 ++ [SelEvent.freeIterator])
        if s.2.2 then ⟨Except.ok s.2.1, tr⟩
        else
          match index.behavior.postFailure with
          | some e => ⟨Except.error (SelError.engineFault e), tr⟩
          | none => ⟨Except.ok s.2.1, tr⟩
    else ⟨Except.error SelError.invalidArgument, []⟩

/-- Rows fetched from the iterator, in fetch order. -/
def fetchedRows {α : Type} (tr : List (SelEvent α)) : List α :=
  tr.filterMap fun e =>
    match e with
    | SelEvent.fetch t => some t
    | _ => none

/-- Rows released by their tuple guard, in release order. -/
def releasedRows {α : Type} (tr : List (SelEvent α)) : List α :=
  tr.filterMap fun e =>
    match e with
    | SelEvent.release t => some t
    | _ => none

/-- Rows emitted to the result sink (port), in emission order. -/
def emittedRows {α : Type} (tr : List (SelEvent α)) : List α :=
  tr.filterMap fun e =>
    match e with
    | SelEvent.emit t => some t
    | _ => none

theorem scanLoop_emitted {α : Type} (rows : List α) :
    ∀ offset limit found, found ≤ limit →
      (scanLoop rows offset limit found).2.1 =
        (rows.drop offset).take (limit - found) := by
  induction rows with
  | nil => intro o l f _; simp [scanLoop]
  | cons t rest ih =>
    intro o l f hf
    by_cases ho : 0 < o
    · simp only [scanLoop, if_pos ho]
      have hd : (t :: rest).drop o = rest.drop (o - 1) := by
        cases o with
        | zero => omega
        | succ n => simp
      rw [hd, ih (o - 1) l f hf]
    · have ho0 : o = 0 := by omega
      subst ho0
      by_cases hl : l = f
      · simp only [scanLoop, if_neg ho, if_pos hl]
        simp [hl]
      · have hf1 : f + 1 ≤ l := by omega
        simp only [scanLoop, if_neg ho, if_neg hl]
        rw [ih 0 l (f + 1) hf1]
        have hlf : l - f = (l - (f + 1)) + 1 := by omega
        rw [hlf]
        simp

theorem scanLoop_broke {α : Type} (rows : List α) :
    ∀ offset limit found, found ≤ limit →
      ((scanLoop rows offset limit found).2.2 = true ↔
        offset + (limit - found) < rows.length) := by
  induction rows with
  | nil => intro o l f _; simp [scanLoop]
  | cons t rest ih =>
    intro o l f hf
    by_cases ho : 0 < o
    · simp only [scanLoop, if_pos ho]
      rw [ih (o - 1) l f hf]
      simp
      omega
    · have ho0 : o = 0 := by omega
      subst ho0
      by_cases hl : l = f
      · simp only [scanLoop, if_neg ho, if_pos hl]
        simp [hl]
      · have hf1 : f + 1 ≤ l := by omega
        simp only [scanLoop, if_neg ho, if_neg hl]
        rw [ih 0 l (f + 1) hf1]
        simp
        omega

theorem scanLoop_fetched {α : Type} (rows : List α) :
    ∀ offset limit found, found ≤ limit →
      fetchedRows (scanLoop rows offset limit found).1 =
        rows.take (offset + (limit - found) + 1) := by
  induction rows with
  | nil => intro o l f _; simp [scanLoop, fetchedRows]
  | cons t rest ih =>
    intro o l f hf
    by_cases ho : 0 < o
    · simp only [scanLoop, if_pos ho]
      have ht : o + (l - f) + 1 = ((o - 1) + (l - f) + 1) + 1 := by omega
      rw [ht]
      simp only [fetchedRows, List.filterMap_cons]
      rw [← fetchedRows, ih (o - 1) l f hf]
      simp
    · have ho0 : o = 0 := by omega
      subst ho0
      by_cases hl : l = f
      · simp only [scanLoop, if_neg ho, if_pos hl]
        simp [hl, fetchedRows]
      · have hf1 : f + 1 ≤ l := by omega
        simp only [scanLoop, if_neg ho, if_neg hl]
        simp only [fetchedRows, List.filterMap_cons]
        rw [← fetchedRows, ih 0 l (f + 1) hf1]
        have hlf : 0 + (l - f) + 1 = (0 + (l - (f + 1)) + 1) + 1 := by omega
        rw [hlf]
        simp

theorem scanLoop_released {α : Type} (rows : List α) :
    ∀ offset limit found,
      releasedRows (scanLoop rows offset limit found).1 =
        fetchedRows (scanLoop rows offset limit found).1 := by
  induction rows with
  | nil => intro o l f; simp [scanLoop, fetchedRows, releasedRows]
  | cons t rest ih =>
    intro o l f
    by_cases ho : 0 < o
    · simp only [scanLoop, if_pos ho]
      simp only [fetchedRows, releasedRows, List.filterMap_cons]
      rw [← fetchedRows, ← releasedRows, ih (o - 1) l f]
    · by_cases hl : l = f
      · simp only [scanLoop, if_neg ho, if_pos hl]
        simp [fetchedRows, releasedRows]
      · simp only [scanLoop, if_neg ho, if_neg hl]
        simp only [fetchedRows, releasedRows, List.filterMap_cons]
        rw [← fetchedRows, ← releasedRows, ih 0 l (f + 1)]

theorem scanLoop_emit_events {α : Type} (rows : List α) :
    ∀ offset limit found,
      emittedRows (scanLoop rows offset limit found).1 =
        (scanLoop rows offset limit found).2.1 := by
  induction rows with
  | nil => intro o l f; simp [scanLoop, emittedRows]
  | cons t rest ih =>
    intro o l f
    by_cases ho : 0 < o
    · simp only [scanLoop, if_pos ho]
      simp only [emittedRows, List.filterMap_cons]
      rw [← emittedRows, ih (o - 1) l f]
    · by_cases hl : l = f
      · simp only [scanLoop, if_neg ho, if_pos hl]
        simp [emittedRows]
      · simp only [scanLoop, if_neg ho, if_neg hl]
        simp only [emittedRows, List.filterMap_cons]
        rw [← emittedRows, ih 0 l (f + 1)]

theorem scanLoop_no_iter_events {α : Type} (rows : List α) :
    ∀ offset limit found,
      SelEvent.freeIterator ∉ (scanLoop rows offset limit found).1 ∧
      SelEvent.allocIterator ∉ (scanLoop rows offset limit found).1 := by
  induction rows with
  | nil => intro o l f; simp [scanLoop]
  | cons t rest ih =>
    intro o l f
    by_cases ho : 0 < o
    · simp only [scanLoop, if_pos ho]
      have := ih (o - 1) l f
      simp_all
    · by_cases hl : l = f
      · simp only [scanLoop, if_neg ho, if_pos hl]
        simp
      · simp only [scanLoop, if_neg ho, if_neg hl]
        have := ih 0 l (f + 1)
        simp_all

/-- Claim C2: for a select with limit L and offset O over an iterator
yielding N rows (no failure injected), the emitted rows are exactly the
rows at positions O+1 through O+min(L, N-O) of the iterator's order, in
order, and their number is min(L, N-O) — which, with truncated natural
subtraction, is exactly max(0, min(L, N-O)); in particular O=0 with L ≥ N
emits all N rows, and N=0 yields an empty result rather than an error. -/
theorem executeSelect_offset_limit {α : Type} (space : SelSpace α) (r : SelRequest)
    (idx : SelIndex α)
    (hidx : List.lookup r.index_id space.indexes = some idx)
    (hit : r.iterator < iterator_type_MAX)
    (hkey : key_validate idx.key_def (decodeIteratorType r.iterator) r.partCount = true)
    (hinit : idx.behavior.initFailure = none)
    (hpost : idx.behavior.postFailure = none) :
    (executeSelect space r).outcome =
      Except.ok ((idx.behavior.rows.drop r.offset).take r.limit) ∧
    ((idx.behavior.rows.drop r.offset).take r.limit).length =
      min r.limit (idx.behavior.rows.length - r.offset) := by
  constructor
  · simp only [executeSelect, hidx, if_neg (not_le.mpr hit), if_pos hkey, hinit, hpost]
    have he := scanLoop_emitted idx.behavior.rows r.offset r.limit 0 (Nat.zero_le _)
    split
    · simp [he]
    · simp [he]
  · simp [List.length_take, List.length_drop]

/-- Witness for C2 on the spec scenario: iterator type "all", offset 2,
limit 3 over 10 rows emits exactly rows 3, 4, 5 in iteration order. -/
theorem executeSelect_offset_limit_witness :
    List.lookup (0 : Nat)
        [(0, (⟨⟨1⟩, ⟨none, [1, 2, 3, 4, 5, 6, 7, 8, 9, 10], none⟩⟩ : SelIndex Nat))] =
      some ⟨⟨1⟩, ⟨none, [1, 2, 3, 4, 5, 6, 7, 8, 9, 10], none⟩⟩ ∧
    (0 : Nat) < iterator_type_MAX ∧
    key_validate ⟨1⟩ (decodeIteratorType 0) (SelRequest.partCount ⟨0, 0, none, 2, 3⟩) = true ∧
    (executeSelect
        (⟨[(0, ⟨⟨1⟩, ⟨none, [1, 2, 3, 4, 5, 6, 7, 8, 9, 10], none⟩⟩)]⟩ : SelSpace Nat)
        ⟨0, 0, none, 2, 3⟩).outcome =
      Except.ok [3, 4, 5] ∧
    ([3, 4, 5] : List Nat).length = min 3 (10 - 2) :=
  ⟨rfl, by decide, rfl,
    (executeSelect_offset_limit
      ⟨[(0, ⟨⟨1⟩, ⟨none, [1, 2, 3, 4, 5, 6, 7, 8, 9, 10], none⟩⟩)]⟩
      ⟨0, 0, none, 2, 3⟩
      ⟨⟨1⟩, ⟨none, [1, 2, 3, 4, 5, 6, 7, 8, 9, 10], none⟩⟩
      rfl (by decide) rfl rfl rfl).1,
    (executeSelect_offset_limit
      ⟨[(0, ⟨⟨1⟩, ⟨none, [1, 2, 3, 4, 5, 6, 7, 8, 9, 10], none⟩⟩)]⟩
      ⟨0, 0, none, 2, 3⟩
      ⟨⟨1⟩, ⟨none, [1, 2, 3, 4, 5, 6, 7, 8, 9, 10], none⟩⟩
      rfl (by decide) rfl rfl rfl).2⟩

/-- Claim C5: on every execution of `executeSelect` in which the iterator
is allocated, the scoped guard frees it exactly once before the call
returns — whether the scan completes, is cut short by the limit, or a
failure is raised after allocation (iterator initialization or mid-scan);
the allocation itself also happens exactly once. -/
theorem executeSelect_frees_iterator {α : Type} [DecidableEq α]
    (space : SelSpace α) (r : SelRequest)
    (halloc : SelEvent.allocIterator ∈ (executeSelect space r).trace) :
    ((executeSelect space r).trace).count (SelEvent.freeIterator : SelEvent α) = 1 ∧
    ((executeSelect space r).trace).count (SelEvent.allocIterator : SelEvent α) = 1 := by
  cases hL : List.lookup r.index_id space.indexes with
  | none =>
    simp only [executeSelect, hL] at halloc
    simp at halloc
  | some idx =>
    by_cases hit : iterator_type_MAX ≤ r.iterator
    · simp only [executeSelect, hL, if_pos hit] at halloc
      simp at halloc
    · by_cases hkey :
        key_validate idx.key_def (decodeIteratorType r.iterator) r.partCount = true
      · cases hI : idx.behavior.initFailure with
        | some e =>
          simp only [executeSelect, hL, if_neg hit, if_pos hkey, hI]
          simp [List.count_cons]
        | none =>
          have hnf := scanLoop_no_iter_events idx.behavior.rows r.offset r.limit 0
          simp only [executeSelect, hL, if_neg hit, if_pos hkey, hI]
          have hfree :
              ((scanLoop idx.behavior.rows r.offset r.limit 0).1).count
                (SelEvent.freeIterator : SelEvent α) = 0 :=
            List.count_eq_zero.mpr hnf.1
          have halc :
              ((scanLoop idx.behavior.rows r.offset r.limit 0).1).count
                (SelEvent.allocIterator : SelEvent α) = 0 :=
            List.count_eq_zero.mpr hnf.2
          split
          · simp [List.count_cons, List.count_append, hfree, halc]
          · split
            · simp [List.count_cons, List.count_append, hfree, halc]
            · simp [List.count_cons, List.count_append, hfree, halc]
      · simp only [executeSelect, hL, if_neg hit, if_neg hkey] at halloc
        simp at halloc

/-- Witness for C5 on a mid-scan failure: the iterator yields three rows
and then raises; the guard still frees the iterator exactly once. -/
theorem executeSelect_frees_iterator_witness :
    SelEvent.allocIterator ∈
      (executeSelect (⟨[(0, ⟨⟨1⟩, ⟨none, [1, 2, 3], some 9⟩⟩)]⟩ : SelSpace Nat)
        ⟨0, 0, none, 0, 10⟩).trace ∧
    ((executeSelect (⟨[(0, ⟨⟨1⟩, ⟨none, [1, 2, 3], some 9⟩⟩)]⟩ : SelSpace Nat)
        ⟨0, 0, none, 0, 10⟩).trace).count (SelEvent.freeIterator : SelEvent Nat) = 1 ∧
    ((executeSelect (⟨[(0, ⟨⟨1⟩, ⟨none, [1, 2, 3], some 9⟩⟩)]⟩ : SelSpace Nat)
        ⟨0, 0, none, 0, 10⟩).trace).count (SelEvent.allocIterator : SelEvent Nat) = 1 :=
  ⟨by decide,
    (executeSelect_frees_iterator ⟨[(0, ⟨⟨1⟩, ⟨none, [1, 2, 3], some 9⟩⟩)]⟩
      ⟨0, 0, none, 0, 10⟩ (by decide)).1,
    (executeSelect_frees_iterator ⟨[(0, ⟨⟨1⟩, ⟨none, [1, 2, 3], some 9⟩⟩)]⟩
      ⟨0, 0, none, 0, 10⟩ (by decide)).2⟩

theorem executeSelect_alloc_of_valid {α : Type} (space : SelSpace α) (r : SelRequest)
    (idx : SelIndex α)
    (hidx : List.lookup r.index_id space.indexes = some idx)
    (hit : r.iterator < iterator_type_MAX)
    (hkey : key_validate idx.key_def (decodeIteratorType r.iterator) r.partCount = true) :
    SelEvent.allocIterator ∈ (executeSelect space r).trace := by
  simp only [executeSelect, hidx, if_neg (not_le.mpr hit), if_pos hkey]
  cases hI : idx.behavior.initFailure with
  | some e => simp
  | none =>
    split
    · simp
    · cases hP : idx.behavior.postFailure
      · simp [hP]
      · simp only [hP]
        split <;> simp

/-- Claim C6: a select whose iterator type is exact-match and whose
decoded key has fewer fields than the index's declared arity fails with
the invalid-argument error during key validation, before any iterator is
allocated (empty trace); the same short key passes validation for any
non-exact-match (range) iterator type code, for which the select proceeds
to allocate an iterator. -/
theorem executeSelect_exact_match_short_key {α : Type} (space : SelSpace α)
    (r : SelRequest) (idx : SelIndex α) (c : Nat)
    (hidx : List.lookup r.index_id space.indexes = some idx)
    (hit : r.iterator < iterator_type_MAX)
    (hex : (decodeIteratorType r.iterator).isExactMatch = true)
    (hshort : r.partCount < idx.key_def.part_count)
    (hc : c < iterator_type_MAX)
    (hcex : (decodeIteratorType c).isExactMatch = false) :
    (executeSelect space r).outcome = Except.error SelError.invalidArgument ∧
    (executeSelect space r).trace = [] ∧
    SelEvent.allocIterator ∈ (executeSelect space { r with iterator := c }).trace := by
  have hkv : key_validate idx.key_def (decodeIteratorType r.iterator) r.partCount = false := by
    simp [key_validate, hex, hshort]
  have hkv2 : key_validate idx.key_def (decodeIteratorType c)
      (SelRequest.partCount { r with iterator := c }) = true := by
    simp [key_validate, hcex]
  refine ⟨?_, ?_, ?_⟩
  · simp only [executeSelect, hidx, if_neg (not_le.mpr hit), hkv]
    simp
  · simp only [executeSelect, hidx, if_neg (not_le.mpr hit), hkv]
    simp
  · exact executeSelect_alloc_of_valid space { r with iterator := c } idx hidx hc hkv2

/-- Witness for C6: an exact-match request (code 1) with a one-field key
against an index of arity 2 fails before allocation; the same key with
the "all" iterator type (code 0) reaches allocation. -/
theorem executeSelect_exact_match_short_key_witness :
    List.lookup (0 : Nat) [(0, (⟨⟨2⟩, ⟨none, [7], none⟩⟩ : SelIndex Nat))] =
      some ⟨⟨2⟩, ⟨none, [7], none⟩⟩ ∧
    (1 : Nat) < iterator_type_MAX ∧
    (decodeIteratorType 1).isExactMatch = true ∧
    SelRequest.partCount ⟨0, 1, some [5], 0, 10⟩ < (2 : Nat) ∧
    (0 : Nat) < iterator_type_MAX ∧
    (decodeIteratorType 0).isExactMatch = false ∧
    (executeSelect (⟨[(0, ⟨⟨2⟩, ⟨none, [7], none⟩⟩)]⟩ : SelSpace Nat)
        ⟨0, 1, some [5], 0, 10⟩).outcome = Except.error SelError.invalidArgument ∧
    (executeSelect (⟨[(0, ⟨⟨2⟩, ⟨none, [7], none⟩⟩)]⟩ : SelSpace Nat)
        ⟨0, 1, some [5], 0, 10⟩).trace = [] ∧
    SelEvent.allocIterator ∈
      (executeSelect (⟨[(0, ⟨⟨2⟩, ⟨none, [7], none⟩⟩)]⟩ : SelSpace Nat)
        { (⟨0, 1, some [5], 0, 10⟩ : SelRequest) with iterator := 0 }).trace := by
  have h := executeSelect_exact_match_short_key
    (⟨[(0, ⟨⟨2⟩, ⟨none, [7], none⟩⟩)]⟩ : SelSpace Nat)
    ⟨0, 1, some [5], 0, 10⟩ ⟨⟨2⟩, ⟨none, [7], none⟩⟩ 0
    rfl (by decide) (by decide) (by decide) (by decide) (by decide)
  exact ⟨rfl, by decide, by decide, by decide, by decide, by decide, h.1, h.2.1, h.2.2⟩

/-- Claim C10: when N - O > L (with N the iterator's row count), the scan
fetches exactly O + L + 1 rows: the O skipped rows, the L emitted rows,
and one more row, which is acquired and released by its tuple guard but
never emitted — the iterator is advanced one step past the last emitted
row before the loop stops on the limit. -/
theorem executeSelect_fetches_one_past_limit {α : Type} (space : SelSpace α)
    (r : SelRequest) (idx : SelIndex α)
    (hidx : List.lookup r.index_id space.indexes = some idx)
    (hit : r.iterator < iterator_type_MAX)
    (hkey : key_validate idx.key_def (decodeIteratorType r.iterator) r.partCount = true)
    (hinit : idx.behavior.initFailure = none)
    (hN : r.offset + r.limit < idx.behavior.rows.length) :
    (executeSelect space r).outcome =
      Except.ok ((idx.behavior.rows.drop r.offset).take r.limit) ∧
    fetchedRows (executeSelect space r).trace =
      idx.behavior.rows.take (r.offset + r.limit + 1) ∧
    (fetchedRows (executeSelect space r).trace).length = r.offset + r.limit + 1 ∧
    releasedRows (executeSelect space r).trace =
      fetchedRows (executeSelect space r).trace ∧
    emittedRows (executeSelect space r).trace =
      (idx.behavior.rows.drop r.offset).take r.limit := by
  have hbroke : (scanLoop idx.behavior.rows r.offset r.limit 0).2.2 = true :=
    (scanLoop_broke idx.behavior.rows r.offset r.limit 0 (Nat.zero_le _)).mpr
      (by simpa using hN)
  have hres : executeSelect space r =
      ⟨Except.ok (scanLoop idx.behavior.rows r.offset r.limit 0).2.1,
        SelEvent.allocIterator ::
          ((scanLoop idx.behavior.rows r.offset r.limit 0).1 ++
            [SelEvent.freeIterator])⟩ := by
    simp only [executeSelect, hidx, if_neg (not_le.mpr hit), if_pos hkey, hinit]
    rw [if_pos hbroke]
  have hfetch := scanLoop_fetched idx.behavior.rows r.offset r.limit 0 (Nat.zero_le _)
  have hrel := scanLoop_released idx.behavior.rows r.offset r.limit 0
  have hemev := scanLoop_emit_events idx.behavior.rows r.offset r.limit 0
  have hem := scanLoop_emitted idx.behavior.rows r.offset r.limit 0 (Nat.zero_le _)
  refine ⟨?_, ?_, ?_, ?_, ?_⟩
  · rw [hres]
    simp [hem]
  · rw [hres]
    simp only [fetchedRows, List.filterMap_cons, List.filterMap_append]
    rw [← fetchedRows, hfetch]
    simp [fetchedRows]
  · rw [hres]
    simp only [fetchedRows, List.filterMap_cons, List.filterMap_append]
    rw [← fetchedRows, hfetch]
    simp [fetchedRows, List.length_take]
    omega
  · rw [hres]
    simp only [fetchedRows, releasedRows, List.filterMap_cons, List.filterMap_append]
    rw [← fetchedRows, ← releasedRows, hrel]
    simp [fetchedRows, releasedRows]
  · rw [hres]
    simp only [emittedRows, List.filterMap_cons, List.filterMap_append]
    rw [← emittedRows, hemev, hem]
    simp [emittedRows]

/-- Witness for C10: five rows, offset 1, limit 2; rows 2 and 3 are
emitted, and rows 1 through 4 are fetched and released — the fourth is
the one fetched past the limit and never emitted. -/
theorem executeSelect_fetches_one_past_limit_witness :
    List.lookup (0 : Nat) [(0, (⟨⟨1⟩, ⟨none, [1, 2, 3, 4, 5], none⟩⟩ : SelIndex Nat))] =
      some ⟨⟨1⟩, ⟨none, [1, 2, 3, 4, 5], none⟩⟩ ∧
    (0 : Nat) < iterator_type_MAX ∧
    key_validate ⟨1⟩ (decodeIteratorType 0) (SelRequest.partCount ⟨0, 0, none, 1, 2⟩) = true ∧
    (1 : Nat) + 2 < 5 ∧
    (executeSelect (⟨[(0, ⟨⟨1⟩, ⟨none, [1, 2, 3, 4, 5], none⟩⟩)]⟩ : SelSpace Nat)
        ⟨0, 0, none, 1, 2⟩).outcome = Except.ok [2, 3] ∧
    fetchedRows (executeSelect (⟨[(0, ⟨⟨1⟩, ⟨none, [1, 2, 3, 4, 5], none⟩⟩)]⟩ : SelSpace Nat)
        ⟨0, 0, none, 1, 2⟩).trace = [1, 2, 3, 4] ∧
    (fetchedRows (executeSelect (⟨[(0, ⟨⟨1⟩, ⟨none, [1, 2, 3, 4, 5], none⟩⟩)]⟩ : SelSpace Nat)
        ⟨0, 0, none, 1, 2⟩).trace).length = 4 ∧
    releasedRows (executeSelect (⟨[(0, ⟨⟨1⟩, ⟨none, [1, 2, 3, 4, 5], none⟩⟩)]⟩ : SelSpace Nat)
        ⟨0, 0, none, 1, 2⟩).trace =
      fetchedRows (executeSelect (⟨[(0, ⟨⟨1⟩, ⟨none, [1, 2, 3, 4, 5], none⟩⟩)]⟩ : SelSpace Nat)
        ⟨0, 0, none, 1, 2⟩).trace ∧
    emittedRows (executeSelect (⟨[(0, ⟨⟨1⟩, ⟨none, [1, 2, 3, 4, 5], none⟩⟩)]⟩ : SelSpace Nat)
        ⟨0, 0, none, 1, 2⟩).trace = [2, 3] := by
  have h := executeSelect_fetches_one_past_limit
    (⟨[(0, ⟨⟨1⟩, ⟨none, [1, 2, 3, 4, 5], none⟩⟩)]⟩ : SelSpace Nat)
    ⟨0, 0, none, 1, 2⟩ ⟨⟨1⟩, ⟨none, [1, 2, 3, 4, 5], none⟩⟩
    rfl (by decide) rfl rfl (by decide)
  exact ⟨rfl, by decide, rfl, by decide, h.1, h.2.1, h.2.2.1, h.2.2.2.1, h.2.2.2.2⟩
